import Mathlib

/-!
Verification of the palette-analyzer component of
`src/scripts/pywal-integration/waybar-color-intelligence.py`.

The analyzer is embedded shallowly:

* a `Color` is a 24-bit RGB triple (channels as natural numbers; the
  hex-string representation used at the I/O boundary is handled by
  `parse_hex_color`, which mirrors the Python `int(hex[i:i+2], 16)` slicing);
* a `Palette` is a finite map from key names to colors; `none` models a
  missing dictionary key (a Python `KeyError` on direct indexing);
* `rgb_to_hls` is the exact-rational embedding of the Python standard
  library routine `colorsys.rgb_to_hls` that the script calls;
* the selection loops of `find_most_vibrant_color` and
  `find_best_complement_color` become `List.foldl` over `range(1, 16)`;
* the WCAG luminance/contrast computation, which needs the real power
  `x ^ 2.4`, is embedded over `ℝ`.

Python floating point is modelled by exact arithmetic (`ℚ` where the source
only adds, multiplies and divides, `ℝ` where it takes a real power).
-/

structure Color where
  r : ℕ
  g : ℕ
  b : ℕ
deriving DecidableEq

/-- A pywal palette: map from key names (`"color0"`..`"color15"`,
`"background"`, `"foreground"`) to colors.  `none` models an absent key. -/
def Palette : Type := String → Option Color

/-- A color is a valid 24-bit RGB triple when every channel is a byte. -/
def validColor (c : Color) : Prop := c.r < 256 ∧ c.g < 256 ∧ c.b < 256

instance : DecidablePred validColor := fun c =>
  inferInstanceAs (Decidable (c.r < 256 ∧ c.g < 256 ∧ c.b < 256))

/-- The key `colors[k]` is present and holds a valid color. -/
def presentValid (colors : Palette) (k : String) : Prop :=
  match colors k with
  | some c => validColor c
  | none => False

instance (colors : Palette) (k : String) : Decidable (presentValid colors k) :=
  match h : colors k with
  | some c => decidable_of_iff (validColor c) (by simp [presentValid, h])
  | none => isFalse (by simp [presentValid, h])

/-- The 18 keys the specification requires a palette to contain. -/
def requiredKeys : List String :=
  ["color0", "color1", "color2", "color3", "color4", "color5", "color6",
   "color7", "color8", "color9", "color10", "color11", "color12", "color13",
   "color14", "color15", "background", "foreground"]

/-- The Python f-string `f'color{i}'`. -/
def keyStr (i : ℕ) : String := "color" ++ toString i

/-- Candidate indices examined by both selection loops:
`range(1, 16)` minus the skipped index 7. -/
def candidateIdxs : List ℕ := [1, 2, 3, 4, 5, 6, 8, 9, 10, 11, 12, 13, 14, 15]

/-- `colorsys.rgb_to_hls` from the Python standard library (the conversion
the script calls), over exact rationals.  Returns `(h, l, s)`.
Python's `x % 1.0` on the hue is `Int.fract`. -/
def rgb_to_hls (r g b : ℚ) : ℚ × ℚ × ℚ :=
  let maxc := max r (max g b)
  let minc := min r (min g b)
  let sumc := maxc + minc
  let rangec := maxc - minc
  let l := sumc / 2
  if minc = maxc then (0, l, 0)
  else
    let s := if l ≤ 1/2 then rangec / sumc else rangec / (2 - sumc)
    let rc := (maxc - r) / rangec
    let gc := (maxc - g) / rangec
    let bc := (maxc - b) / rangec
    let h := if r = maxc then bc - gc
             else if g = maxc then 2 + rc - bc
             else 4 + gc - rc
    (Int.fract (h / 6), l, s)

/-- `hex_to_hsl` (line 27 of the script) after the hex-string parse:
normalize each channel to `[0, 1]` and convert with `colorsys.rgb_to_hls`. -/
def hex_to_hsl (c : Color) : ℚ × ℚ × ℚ :=
  rgb_to_hls ((c.r : ℚ) / 255) ((c.g : ℚ) / 255) ((c.b : ℚ) / 255)

/-- The vibrancy score from line 48 of the script:
`s * s * (1 - abs(l - 0.45))`. -/
def vibrancy_score (c : Color) : ℚ :=
  let hls := hex_to_hsl c
  hls.2.2 * hls.2.2 * (1 - |hls.2.1 - 0.45|)

/-- The complement score from lines 75-83 of the script, for a candidate `c`
against the accent color `accent_hex`. -/
def complement_score (accent_hex c : Color) : ℚ :=
  let accent_h := (hex_to_hsl accent_hex).1
  let hls := hex_to_hsl c
  let h := hls.1
  let l := hls.2.1
  let s := hls.2.2
  let hue_diff := |h - accent_h|
  let hue_diff := if hue_diff > 1/2 then 1 - hue_diff else hue_diff
  let complement_distance := |hue_diff - 1/2|
  (1 - complement_distance * 2) * s * (1 - |l - 0.4|)

/-- Body of the `for i in range(1, 16)` loop of `find_most_vibrant_color`
(lines 41-52): skip index 7 and absent keys, replace the running
`(max_saturation, most_vibrant_key, most_vibrant_hex)` state when the
candidate's vibrancy strictly exceeds the running maximum. -/
def vibrantStep (colors : Palette) (st : ℚ × String × Color) (i : ℕ) :
    ℚ × String × Color :=
  if i = 7 then st
  else
    match colors (keyStr i) with
    | none => st
    | some c =>
      if vibrancy_score c > st.1 then (vibrancy_score c, keyStr i, c) else st

/-- `find_most_vibrant_color` (lines 34-54).  The unconditional read
`colors['color1']` becomes the initial `match` (a `KeyError` is `none`); the
loop becomes a `List.foldl` of `vibrantStep` starting from
`(0, 'color1', colors['color1'])`. -/
def find_most_vibrant_color (colors : Palette) : Option (String × Color) :=
  match colors "color1" with
  | none => none
  | some fallback_hex =>
    some (((List.range' 1 15).foldl (vibrantStep colors)
      (0, "color1", fallback_hex)).2)

/-- Body of the `for i in range(1, 16)` loop of `find_best_complement_color`
(lines 65-87): skip indices 0 and 7, the accent key, and absent keys; replace
the running `(best_complement_score, best_complement_key)` state when the
candidate's complement score strictly exceeds the running best. -/
def complementStep (colors : Palette) (accent_color_key : String)
    (accent_hex : Color) (st : ℚ × String) (i : ℕ) : ℚ × String :=
  if i = 0 ∨ i = 7 then st
  else if keyStr i = accent_color_key then st
  else
    match colors (keyStr i) with
    | none => st
    | some c =>
      if complement_score accent_hex c > st.1 then
        (complement_score accent_hex c, keyStr i)
      else st

/-- `find_best_complement_color` (lines 56-89).  The unconditional read
`colors[accent_color_key]` becomes the initial `match`; the loop state
`(best_complement_score, best_complement_key)` starts at `(-1, 'color2')`. -/
def find_best_complement_color (colors : Palette) (accent_color_key : String) :
    Option String :=
  match colors accent_color_key with
  | none => none
  | some accent_hex =>
    some (((List.range' 1 15).foldl (complementStep colors accent_color_key accent_hex)
      (-1, "color2")).2)

/-- Value of a single hexadecimal digit, as accepted by Python `int(s, 16)`. -/
def hexDigitVal (ch : Char) : Option ℕ :=
  if '0' ≤ ch ∧ ch ≤ '9' then some (ch.toNat - '0'.toNat)
  else if 'a' ≤ ch ∧ ch ≤ 'f' then some (ch.toNat - 'a'.toNat + 10)
  else if 'A' ≤ ch ∧ ch ≤ 'F' then some (ch.toNat - 'A'.toNat + 10)
  else none

/-- Python `int(s[i:i+2], 16)`: the two characters at positions `i`, `i+1`
read as a hexadecimal number (`none` models the `ValueError` / short slice). -/
def parseHexPair (s : String) (i : ℕ) : Option ℕ :=
  match (s.toList.drop i).take 2 with
  | [a, b] => do
      let x ← hexDigitVal a
      let y ← hexDigitVal b
      pure (16 * x + y)
  | _ => none

/-- The channel slicing `int(hex[1:3],16), int(hex[3:5],16), int(hex[5:7],16)`
used by `get_luminance` on a `'#rrggbb'` string. -/
def parse_hex_color (s : String) : Option Color := do
  let r ← parseHexPair s 1
  let g ← parseHexPair s 3
  let b ← parseHexPair s 5
  pure ⟨r, g, b⟩

noncomputable section

/-- `gamma_correct` (lines 98-99): linear below the 0.03928 threshold,
power-law `((c + 0.055) / 1.055) ** 2.4` above. -/
def gamma_correct (c : ℝ) : ℝ :=
  if c ≤ 0.03928 then c / 12.92 else ((c + 0.055) / 1.055) ^ (2.4 : ℝ)

/-- `get_luminance` (lines 93-101) after the hex parse: weighted sum of the
gamma-corrected normalized channels. -/
def get_luminance (c : Color) : ℝ :=
  0.2126 * gamma_correct ((c.r : ℝ) / 255)
    + 0.7152 * gamma_correct ((c.g : ℝ) / 255)
    + 0.0722 * gamma_correct ((c.b : ℝ) / 255)

/-- `calculate_contrast_ratio` (lines 91-107) on parsed colors:
`(lighter + 0.05) / (darker + 0.05)`. -/
def calculate_contrast_ratio (color1 color2 : Color) : ℝ :=
  let lum1 := get_luminance color1
  let lum2 := get_luminance color2
  let lighter := max lum1 lum2
  let darker := min lum1 lum2
  (lighter + 0.05) / (darker + 0.05)

/-- `calculate_contrast_ratio` exactly as called on `'#rrggbb'` strings:
parse both arguments with the source's slicing, then take the ratio. -/
def calculate_contrast_ratio_hex (s1 s2 : String) : Option ℝ := do
  let c1 ← parse_hex_color s1
  let c2 ← parse_hex_color s2
  pure (calculate_contrast_ratio c1 c2)

/-- `get_best_contrast_text_color` (lines 109-117): reads
`colors['foreground']` and `colors['background']` (a missing key is `none`),
then returns `'@foreground'` if the foreground candidate has strictly higher
contrast against the given background, else `'@background'`. -/
def get_best_contrast_text_color (bg_color_hex : Color) (colors : Palette) :
    Option String :=
  match colors "foreground", colors "background" with
  | some fg_hex, some bg_hex =>
    some (if calculate_contrast_ratio fg_hex bg_color_hex >
            calculate_contrast_ratio bg_hex bg_color_hex
          then "@foreground" else "@background")
  | _, _ => none

end

/-! ### The selection loops as a generic strict-improvement fold -/

/-- One iteration of a best-so-far loop: skip ineligible indices, replace the
state exactly when the candidate's weight strictly exceeds the running best. -/
def argmaxStep {α : Type} (elig : ℕ → Bool) (w : ℕ → ℚ) (f : ℕ → α)
    (st : ℚ × α) (i : ℕ) : ℚ × α :=
  if elig i then (if w i > st.1 then (w i, f i) else st) else st

/-- Folding `argmaxStep` over a strictly increasing index list either leaves
the initial state untouched (no eligible index strictly beats the initial
weight) or ends at the first eligible index attaining the maximum weight. -/
lemma argmax_fold_spec {α : Type} (elig : ℕ → Bool) (w : ℕ → ℚ) (f : ℕ → α) :
    ∀ (l : List ℕ), l.Pairwise (· < ·) → ∀ (m : ℚ) (x : α),
      (l.foldl (argmaxStep elig w f) (m, x) = (m, x)
          ∧ ∀ i ∈ l, elig i = true → w i ≤ m)
      ∨ (∃ i ∈ l, elig i = true
          ∧ l.foldl (argmaxStep elig w f) (m, x) = (w i, f i) ∧ m < w i
          ∧ (∀ j ∈ l, elig j = true → w j ≤ w i)
          ∧ (∀ j ∈ l, elig j = true → j < i → w j < w i)) := by
  intro l
  induction l with
  | nil =>
    intro _ m x
    left
    exact ⟨rfl, by simp⟩
  | cons a t ih =>
    intro hp m x
    have hat : ∀ j ∈ t, a < j := (List.pairwise_cons.mp hp).1
    have hpt : t.Pairwise (· < ·) := (List.pairwise_cons.mp hp).2
    rw [List.foldl_cons]
    by_cases he : elig a = true
    · by_cases hlt : w a > m
      · have hstep : argmaxStep elig w f (m, x) a = (w a, f a) := by
          simp [argmaxStep, he, hlt]
        rw [hstep]
        rcases ih hpt (w a) (f a) with ⟨heq, hble⟩ | ⟨i, hit, hei, heq, hmi, hle, hfirst⟩
        · right
          refine ⟨a, List.mem_cons_self a t, he, heq, hlt, ?_, ?_⟩
          · intro j hj _
            rcases List.mem_cons.mp hj with rfl | hj'
            · exact le_refl _
            · exact hble j hj' (by assumption)
          · intro j hj _ hja
            rcases List.mem_cons.mp hj with rfl | hj'
            · exact absurd hja (lt_irrefl _)
            · exact absurd hja (not_lt.mpr (le_of_lt (hat j hj')))
        · right
          refine ⟨i, List.mem_cons_of_mem a hit, hei, heq, lt_trans hlt hmi, ?_, ?_⟩
          · intro j hj hej
            rcases List.mem_cons.mp hj with rfl | hj'
            · exact le_of_lt hmi
            · exact hle j hj' hej
          · intro j hj hej hji
            rcases List.mem_cons.mp hj with rfl | hj'
            · exact hmi
            · exact hfirst j hj' hej hji
      · have hstep : argmaxStep elig w f (m, x) a = (m, x) := by
          simp [argmaxStep, he, hlt]
        rw [hstep]
        rcases ih hpt m x with ⟨heq, hble⟩ | ⟨i, hit, hei, heq, hmi, hle, hfirst⟩
        · left
          refine ⟨heq, ?_⟩
          intro j hj hej
          rcases List.mem_cons.mp hj with rfl | hj'
          · exact not_lt.mp hlt
          · exact hble j hj' hej
        · right
          refine ⟨i, List.mem_cons_of_mem a hit, hei, heq, hmi, ?_, ?_⟩
          · intro j hj hej
            rcases List.mem_cons.mp hj with rfl | hj'
            · exact le_trans (not_lt.mp hlt) (le_of_lt hmi)
            · exact hle j hj' hej
          · intro j hj hej hji
            rcases List.mem_cons.mp hj with rfl | hj'
            · exact lt_of_le_of_lt (not_lt.mp hlt) hmi
            · exact hfirst j hj' hej hji
    · have hstep : argmaxStep elig w f (m, x) a = (m, x) := by
        simp [argmaxStep, he]
      rw [hstep]
      rcases ih hpt m x with ⟨heq, hble⟩ | ⟨i, hit, hei, heq, hmi, hle, hfirst⟩
      · left
        refine ⟨heq, ?_⟩
        intro j hj hej
        rcases List.mem_cons.mp hj with rfl | hj'
        · exact absurd hej he
        · exact hble j hj' hej
      · right
        refine ⟨i, List.mem_cons_of_mem a hit, hei, heq, hmi, ?_, ?_⟩
        · intro j hj hej
          rcases List.mem_cons.mp hj with rfl | hj'
          · exact absurd hej he
          · exact hle j hj' hej
        · intro j hj hej hji
          rcases List.mem_cons.mp hj with rfl | hj'
          · exact absurd hej he
          · exact hfirst j hj' hej hji

/-! ### Bridging the two source loops to `argmaxStep` -/

/-- Eligibility in the vibrancy loop: index not 7 and key present. -/
def eligV (colors : Palette) (i : ℕ) : Bool :=
  decide (i ≠ 7) && (colors (keyStr i)).isSome

/-- Vibrancy of the color stored at index `i` (0 when the key is absent;
the loop never reads an absent key). -/
def vibrancyAt (colors : Palette) (i : ℕ) : ℚ :=
  ((colors (keyStr i)).map vibrancy_score).getD 0

/-- Loop payload of the vibrancy loop: the key name and its color. -/
def fV (colors : Palette) (i : ℕ) : String × Color :=
  (keyStr i, (colors (keyStr i)).getD ⟨0, 0, 0⟩)

lemma stepV_eq (colors : Palette) :
    vibrantStep colors
    = argmaxStep (eligV colors) (vibrancyAt colors) (fV colors) := by
  funext st i
  by_cases h7 : i = 7
  · simp [vibrantStep, argmaxStep, eligV, h7]
  · cases hc : colors (keyStr i) with
    | none => simp [vibrantStep, argmaxStep, eligV, vibrancyAt, fV, h7, hc]
    | some c => simp [vibrantStep, argmaxStep, eligV, vibrancyAt, fV, h7, hc]

/-- Eligibility in the complement loop: index not 0 or 7, key different from
the accent key, and key present. -/
def eligC (colors : Palette) (ak : String) (i : ℕ) : Bool :=
  decide (¬(i = 0 ∨ i = 7)) && decide (keyStr i ≠ ak) && (colors (keyStr i)).isSome

/-- Complement score of the color stored at index `i` against accent color
`a` (0 when the key is absent; the loop never reads an absent key). -/
def complementScoreAt (colors : Palette) (a : Color) (i : ℕ) : ℚ :=
  ((colors (keyStr i)).map (complement_score a)).getD 0

lemma stepC_eq (colors : Palette) (ak : String) (a : Color) :
    complementStep colors ak a
    = argmaxStep (eligC colors ak) (complementScoreAt colors a) keyStr := by
  funext st i
  by_cases h07 : i = 0 ∨ i = 7
  · simp [complementStep, argmaxStep, eligC, h07]
  · by_cases hak : keyStr i = ak
    · simp [complementStep, argmaxStep, eligC, h07, hak]
    · cases hc : colors (keyStr i) with
      | none => simp [complementStep, argmaxStep, eligC, complementScoreAt, h07, hak, hc]
      | some c => simp [complementStep, argmaxStep, eligC, complementScoreAt, h07, hak, hc]

/-! ### Small decidable facts about the index lists and key names -/

lemma range_pairwise : (List.range' 1 15).Pairwise (· < ·) := by decide

lemma cand_mem_range : ∀ i ∈ candidateIdxs, i ∈ List.range' 1 15 := by decide

lemma cand_ne7 : ∀ i ∈ candidateIdxs, i ≠ 7 := by decide

lemma cand_ge1 : ∀ i ∈ candidateIdxs, 1 ≤ i := by decide

lemma cand_keys_required : ∀ i ∈ candidateIdxs, keyStr i ∈ requiredKeys := by decide

lemma cand_keys_ne_bgfg :
    ∀ i ∈ candidateIdxs, keyStr i ≠ "color0" ∧ keyStr i ≠ "color7" := by decide

lemma mem_cand_of_range (i : ℕ) (hr : i ∈ List.range' 1 15) (h7 : i ≠ 7) :
    i ∈ candidateIdxs := by
  fin_cases hr <;> first | decide | exact absurd rfl h7

lemma presentValid_iff (colors : Palette) (k : String) :
    presentValid colors k ↔ ∃ c, colors k = some c ∧ validColor c := by
  cases h : colors k <;> simp [presentValid, h]

/-- Either no eligible candidate's vibrancy strictly beats the initial 0 and
the loop returns the `'color1'` fallback, or the result is the first eligible
index attaining the maximal vibrancy. -/
lemma vibrant_cases (colors : Palette) (c1 : Color)
    (hc1 : colors "color1" = some c1) :
    (find_most_vibrant_color colors = some ("color1", c1)
        ∧ ∀ i ∈ List.range' 1 15, eligV colors i = true → vibrancyAt colors i ≤ 0)
    ∨ (∃ i ∈ List.range' 1 15, eligV colors i = true
        ∧ (∃ ci, colors (keyStr i) = some ci
            ∧ find_most_vibrant_color colors = some (keyStr i, ci))
        ∧ 0 < vibrancyAt colors i
        ∧ (∀ j ∈ List.range' 1 15, eligV colors j = true →
            vibrancyAt colors j ≤ vibrancyAt colors i)
        ∧ (∀ j ∈ List.range' 1 15, eligV colors j = true → j < i →
            vibrancyAt colors j < vibrancyAt colors i)) := by
  have hfind : find_most_vibrant_color colors
      = some (((List.range' 1 15).foldl (vibrantStep colors)
          (0, "color1", c1)).2) := by
    simp [find_most_vibrant_color, hc1]
  rw [stepV_eq colors] at hfind
  rcases argmax_fold_spec (eligV colors) (vibrancyAt colors) (fV colors)
      (List.range' 1 15) range_pairwise 0 ("color1", c1)
    with ⟨heq, hble⟩ | ⟨i, hir, hei, heq, hmi, hle, hfirst⟩
  · left
    rw [heq] at hfind
    exact ⟨hfind, hble⟩
  · right
    have hsome : (colors (keyStr i)).isSome = true := by
      have := hei
      simp only [eligV, Bool.and_eq_true] at this
      exact this.2
    obtain ⟨ci, hci⟩ := Option.isSome_iff_exists.mp hsome
    rw [heq] at hfind
    refine ⟨i, hir, hei, ⟨ci, hci, ?_⟩, hmi, hle, hfirst⟩
    simpa [fV, hci] using hfind

/-- Either no eligible candidate's complement score strictly beats the initial
-1 and the loop returns the `'color2'` fallback, or the result is the first
eligible index attaining the maximal complement score. -/
lemma complement_cases (colors : Palette) (ak : String) (a : Color)
    (ha : colors ak = some a) :
    (find_best_complement_color colors ak = some "color2"
        ∧ ∀ i ∈ List.range' 1 15, eligC colors ak i = true →
            complementScoreAt colors a i ≤ -1)
    ∨ (∃ i ∈ List.range' 1 15, eligC colors ak i = true
        ∧ find_best_complement_color colors ak = some (keyStr i)
        ∧ (-1 : ℚ) < complementScoreAt colors a i
        ∧ (∀ j ∈ List.range' 1 15, eligC colors ak j = true →
            complementScoreAt colors a j ≤ complementScoreAt colors a i)
        ∧ (∀ j ∈ List.range' 1 15, eligC colors ak j = true → j < i →
            complementScoreAt colors a j < complementScoreAt colors a i)) := by
  have hfind : find_best_complement_color colors ak
      = some (((List.range' 1 15).foldl (complementStep colors ak a)
          (-1, "color2")).2) := by
    simp [find_best_complement_color, ha]
  rw [stepC_eq colors ak a] at hfind
  rcases argmax_fold_spec (eligC colors ak) (complementScoreAt colors a) keyStr
      (List.range' 1 15) range_pairwise (-1) "color2"
    with ⟨heq, hble⟩ | ⟨i, hir, hei, heq, hmi, hle, hfirst⟩
  · left
    rw [heq] at hfind
    exact ⟨hfind, hble⟩
  · right
    rw [heq] at hfind
    exact ⟨i, hir, hei, hfind, hmi, hle, hfirst⟩

/-! ### Range facts about the HLS conversion and the two scores -/

lemma rgb_to_hls_h_mem (r g b : ℚ) :
    0 ≤ (rgb_to_hls r g b).1 ∧ (rgb_to_hls r g b).1 < 1 := by
  simp only [rgb_to_hls]
  split_ifs <;>
    first
      | exact ⟨Int.fract_nonneg _, Int.fract_lt_one _⟩
      | norm_num

lemma rgb_to_hls_l_eq (r g b : ℚ) :
    (rgb_to_hls r g b).2.1 = (max r (max g b) + min r (min g b)) / 2 := by
  simp only [rgb_to_hls]
  split_ifs <;> rfl

lemma rgb_to_hls_s_eq (r g b : ℚ) :
    (rgb_to_hls r g b).2.2 =
      if min r (min g b) = max r (max g b) then 0
      else if (max r (max g b) + min r (min g b)) / 2 ≤ 1/2 then
        (max r (max g b) - min r (min g b)) / (max r (max g b) + min r (min g b))
      else
        (max r (max g b) - min r (min g b)) / (2 - (max r (max g b) + min r (min g b))) := by
  simp only [rgb_to_hls]
  split_ifs <;> rfl

lemma rgb_to_hls_ls_mem (r g b : ℚ)
    (hr0 : 0 ≤ r) (hr1 : r ≤ 1) (hg0 : 0 ≤ g) (hg1 : g ≤ 1)
    (hb0 : 0 ≤ b) (hb1 : b ≤ 1) :
    (0 ≤ (rgb_to_hls r g b).2.1 ∧ (rgb_to_hls r g b).2.1 ≤ 1)
    ∧ (0 ≤ (rgb_to_hls r g b).2.2 ∧ (rgb_to_hls r g b).2.2 ≤ 1) := by
  have hmax1 : max r (max g b) ≤ 1 := max_le hr1 (max_le hg1 hb1)
  have hmin0 : 0 ≤ min r (min g b) := le_min hr0 (le_min hg0 hb0)
  have hminmax : min r (min g b) ≤ max r (max g b) :=
    le_trans (min_le_left _ _) (le_max_left _ _)
  rw [rgb_to_hls_l_eq, rgb_to_hls_s_eq]
  refine ⟨⟨by positivity, by linarith⟩, ?_⟩
  split_ifs with h hl
  · norm_num
  · have hlt : min r (min g b) < max r (max g b) := lt_of_le_of_ne hminmax h
    have hmaxpos : 0 < max r (max g b) := lt_of_le_of_lt hmin0 hlt
    have hsum : 0 < max r (max g b) + min r (min g b) := by linarith
    refine ⟨div_nonneg (by linarith) (le_of_lt hsum), ?_⟩
    rw [div_le_one hsum]
    linarith
  · have hlt : min r (min g b) < max r (max g b) := lt_of_le_of_ne hminmax h
    have hden : 0 < 2 - (max r (max g b) + min r (min g b)) := by linarith
    refine ⟨div_nonneg (by linarith) (le_of_lt hden), ?_⟩
    rw [div_le_one hden]
    linarith

lemma channel_mem (n : ℕ) (h : n < 256) :
    0 ≤ (n : ℚ) / 255 ∧ (n : ℚ) / 255 ≤ 1 := by
  have h1 : (n : ℚ) ≤ 255 := by exact_mod_cast Nat.le_of_lt_succ h
  constructor
  · positivity
  · rw [div_le_one (by norm_num : (0 : ℚ) < 255)]
    exact h1

lemma hex_to_hsl_h_mem (c : Color) :
    0 ≤ (hex_to_hsl c).1 ∧ (hex_to_hsl c).1 < 1 :=
  rgb_to_hls_h_mem _ _ _

lemma hex_to_hsl_l_mem (c : Color) (hv : validColor c) :
    0 ≤ (hex_to_hsl c).2.1 ∧ (hex_to_hsl c).2.1 ≤ 1 := by
  obtain ⟨h1, h2⟩ := channel_mem c.r hv.1
  obtain ⟨h3, h4⟩ := channel_mem c.g hv.2.1
  obtain ⟨h5, h6⟩ := channel_mem c.b hv.2.2
  exact (rgb_to_hls_ls_mem _ _ _ h1 h2 h3 h4 h5 h6).1

lemma hex_to_hsl_s_mem (c : Color) (hv : validColor c) :
    0 ≤ (hex_to_hsl c).2.2 ∧ (hex_to_hsl c).2.2 ≤ 1 := by
  obtain ⟨h1, h2⟩ := channel_mem c.r hv.1
  obtain ⟨h3, h4⟩ := channel_mem c.g hv.2.1
  obtain ⟨h5, h6⟩ := channel_mem c.b hv.2.2
  exact (rgb_to_hls_ls_mem _ _ _ h1 h2 h3 h4 h5 h6).2

lemma vibrancy_score_nonneg (c : Color) (hv : validColor c) :
    0 ≤ vibrancy_score c := by
  obtain ⟨hl0, hl1⟩ := hex_to_hsl_l_mem c hv
  have habs : |(hex_to_hsl c).2.1 - 0.45| ≤ 1 := by
    rw [abs_le]
    constructor <;> [linarith; linarith]
  have h1 : 0 ≤ 1 - |(hex_to_hsl c).2.1 - 0.45| := by linarith
  have h2 : 0 ≤ (hex_to_hsl c).2.2 * (hex_to_hsl c).2.2 := mul_self_nonneg _
  simp only [vibrancy_score]
  positivity

lemma complement_score_mem (a c : Color) (hc : validColor c) :
    0 ≤ complement_score a c ∧ complement_score a c ≤ 1 := by
  obtain ⟨hah0, hah1⟩ := hex_to_hsl_h_mem a
  obtain ⟨hh0, hh1⟩ := hex_to_hsl_h_mem c
  obtain ⟨hl0, hl1⟩ := hex_to_hsl_l_mem c hc
  obtain ⟨hs0, hs1⟩ := hex_to_hsl_s_mem c hc
  simp only [complement_score]
  set ah := (hex_to_hsl a).1 with hahdef
  set h := (hex_to_hsl c).1 with hhdef
  set l := (hex_to_hsl c).2.1 with hldef
  set s := (hex_to_hsl c).2.2 with hsdef
  have hd0 : 0 ≤ |h - ah| := abs_nonneg _
  have hd1 : |h - ah| < 1 := by
    rw [abs_lt]
    constructor <;> linarith
  set hd := if |h - ah| > 1/2 then 1 - |h - ah| else |h - ah| with hddef
  have hdmem : 0 ≤ hd ∧ hd ≤ 1/2 := by
    rw [hddef]
    split_ifs with hgt
    · constructor <;> linarith
    · constructor <;> linarith [not_lt.mp hgt]
  have hcd : |hd - 1/2| ≤ 1/2 := by
    rw [abs_le]
    constructor <;> [linarith [hdmem.1, hdmem.2]; linarith [hdmem.1, hdmem.2]]
  have hf1a : 0 ≤ 1 - |hd - 1/2| * 2 := by linarith [hcd]
  have hf1b : 1 - |hd - 1/2| * 2 ≤ 1 := by linarith [abs_nonneg (hd - 1/2)]
  have hf3a : 0 ≤ 1 - |l - 0.4| := by
    have : |l - 0.4| ≤ 1 := by
      rw [abs_le]
      constructor <;> linarith
    linarith
  have hf3b : 1 - |l - 0.4| ≤ 1 := by linarith [abs_nonneg (l - 0.4)]
  constructor
  · positivity
  · exact mul_le_one₀ (mul_le_one₀ hf1b hs0 hs1) hf3a hf3b

/-! ### First-argmax characterizations of the two selection functions -/

/-- On a palette where every required key is present with a valid color,
`find_most_vibrant_color` returns the candidate key of smallest index among
those attaining the maximal vibrancy score. -/
lemma vibrant_argmax (colors : Palette)
    (hall : ∀ k ∈ requiredKeys, presentValid colors k) :
    ∃ i ∈ candidateIdxs, ∃ c, colors (keyStr i) = some c
      ∧ find_most_vibrant_color colors = some (keyStr i, c)
      ∧ (∀ j ∈ candidateIdxs, vibrancyAt colors j ≤ vibrancyAt colors i)
      ∧ (∀ j ∈ candidateIdxs, j < i → vibrancyAt colors j < vibrancyAt colors i) := by
  have hpres : ∀ j ∈ candidateIdxs, ∃ c, colors (keyStr j) = some c ∧ validColor c :=
    fun j hj => (presentValid_iff colors _).mp (hall _ (cand_keys_required j hj))
  have hk1 : keyStr 1 = "color1" := by decide
  obtain ⟨c1, hc1, hv1⟩ := hpres 1 (by decide)
  rw [hk1] at hc1
  have heligAll : ∀ j ∈ candidateIdxs, eligV colors j = true := by
    intro j hj
    obtain ⟨c, hc, _⟩ := hpres j hj
    simp [eligV, cand_ne7 j hj, hc]
  rcases vibrant_cases colors c1 hc1 with
    ⟨hres, hble⟩ | ⟨i, hir, hei, ⟨ci, hci, hres⟩, _, hle, hfirst⟩
  · have hv1at : vibrancyAt colors 1 = vibrancy_score c1 := by
      simp [vibrancyAt, hk1, hc1]
    have h10 : vibrancyAt colors 1 ≤ 0 :=
      hble 1 (by decide) (heligAll 1 (by decide))
    have h1z : vibrancyAt colors 1 = 0 :=
      le_antisymm h10 (by rw [hv1at]; exact vibrancy_score_nonneg c1 hv1)
    refine ⟨1, by decide, c1, by rw [hk1]; exact hc1, by rw [hk1]; exact hres, ?_, ?_⟩
    · intro j hj
      rw [h1z]
      exact hble j (cand_mem_range j hj) (heligAll j hj)
    · intro j hj hji
      exact absurd hji (by have := cand_ge1 j hj; omega)
  · have h7 : i ≠ 7 := by
      simp only [eligV, Bool.and_eq_true, decide_eq_true_iff] at hei
      exact hei.1
    have hic : i ∈ candidateIdxs := mem_cand_of_range i hir h7
    refine ⟨i, hic, ci, hci, hres, ?_, ?_⟩
    · intro j hj
      exact hle j (cand_mem_range j hj) (heligAll j hj)
    · intro j hj hji
      exact hfirst j (cand_mem_range j hj) (heligAll j hj) hji

lemma eligC_of_cand (colors : Palette) (ak : String) (j : ℕ)
    (hj : j ∈ candidateIdxs) (hne : keyStr j ≠ ak)
    (hsome : (colors (keyStr j)).isSome = true) :
    eligC colors ak j = true := by
  have h07 : ¬(j = 0 ∨ j = 7) := by
    have := cand_ge1 j hj
    have := cand_ne7 j hj
    omega
  simp [eligC, h07, hne, hsome]

/-- On a palette where the accent key is present and every candidate key is
present with a valid color, `find_best_complement_color` returns the eligible
candidate key of smallest index among those attaining the maximal complement
score; the `'color2'` fallback is never used. -/
lemma complement_argmax (colors : Palette) (ak : String) (a : Color)
    (ha : colors ak = some a)
    (hcand : ∀ j ∈ candidateIdxs, presentValid colors (keyStr j)) :
    ∃ i ∈ candidateIdxs, keyStr i ≠ ak
      ∧ find_best_complement_color colors ak = some (keyStr i)
      ∧ (∀ j ∈ candidateIdxs, keyStr j ≠ ak →
          complementScoreAt colors a j ≤ complementScoreAt colors a i)
      ∧ (∀ j ∈ candidateIdxs, keyStr j ≠ ak → j < i →
          complementScoreAt colors a j < complementScoreAt colors a i) := by
  have hpres : ∀ j ∈ candidateIdxs, ∃ c, colors (keyStr j) = some c ∧ validColor c :=
    fun j hj => (presentValid_iff colors _).mp (hcand j hj)
  have helig : ∀ j ∈ candidateIdxs, keyStr j ≠ ak → eligC colors ak j = true := by
    intro j hj hne
    obtain ⟨c, hc, _⟩ := hpres j hj
    exact eligC_of_cand colors ak j hj hne (by simp [hc])
  rcases complement_cases colors ak a ha with
    ⟨hres, hble⟩ | ⟨i, hir, hei, hres, _, hle, hfirst⟩
  · exfalso
    have hcontra : ∀ j ∈ candidateIdxs, keyStr j ≠ ak → False := by
      intro j hj hne
      obtain ⟨c, hc, hv⟩ := hpres j hj
      have hb := hble j (cand_mem_range j hj) (helig j hj hne)
      have hsc : complementScoreAt colors a j = complement_score a c := by
        simp [complementScoreAt, hc]
      have h0 := (complement_score_mem a c hv).1
      rw [hsc] at hb
      linarith
    by_cases h1 : keyStr 1 = ak
    · refine hcontra 2 (by decide) ?_
      rw [← h1]
      decide
    · exact hcontra 1 (by decide) h1
  · simp only [eligC, Bool.and_eq_true, decide_eq_true_iff] at hei
    have hic : i ∈ candidateIdxs := mem_cand_of_range i hir (by omega)
    refine ⟨i, hic, hei.1.2, hres, ?_, ?_⟩
    · intro j hj hne
      exact hle j (cand_mem_range j hj) (helig j hj hne)
    · intro j hj hne hji
      exact hfirst j (cand_mem_range j hj) (helig j hj hne) hji

/-! ### Facts about the WCAG luminance and contrast computation -/

lemma gamma_correct_nonneg (c : ℝ) (h : 0 ≤ c) : 0 ≤ gamma_correct c := by
  unfold gamma_correct
  split_ifs
  · positivity
  · positivity

lemma get_luminance_nonneg (c : Color) : 0 ≤ get_luminance c := by
  unfold get_luminance
  have h1 := gamma_correct_nonneg ((c.r : ℝ) / 255) (by positivity)
  have h2 := gamma_correct_nonneg ((c.g : ℝ) / 255) (by positivity)
  have h3 := gamma_correct_nonneg ((c.b : ℝ) / 255) (by positivity)
  positivity

lemma gamma_correct_zero : gamma_correct 0 = 0 := by
  rw [gamma_correct, if_pos (by norm_num : (0 : ℝ) ≤ 0.03928)]
  norm_num

lemma gamma_correct_one : gamma_correct 1 = 1 := by
  rw [gamma_correct, if_neg (by norm_num : ¬((1 : ℝ) ≤ 0.03928))]
  have h : ((1 : ℝ) + 0.055) / 1.055 = 1 := by norm_num
  rw [h, Real.one_rpow]

lemma lum_black : get_luminance ⟨0, 0, 0⟩ = 0 := by
  show 0.2126 * gamma_correct (((0 : ℕ) : ℝ) / 255)
      + 0.7152 * gamma_correct (((0 : ℕ) : ℝ) / 255)
      + 0.0722 * gamma_correct (((0 : ℕ) : ℝ) / 255) = 0
  norm_num [gamma_correct_zero]

lemma lum_white : get_luminance ⟨255, 255, 255⟩ = 1 := by
  show 0.2126 * gamma_correct (((255 : ℕ) : ℝ) / 255)
      + 0.7152 * gamma_correct (((255 : ℕ) : ℝ) / 255)
      + 0.0722 * gamma_correct (((255 : ℕ) : ℝ) / 255) = 1
  have h : ((255 : ℕ) : ℝ) / 255 = 1 := by norm_num
  rw [h, gamma_correct_one]
  norm_num

lemma contrast_black_white :
    calculate_contrast_ratio ⟨0, 0, 0⟩ ⟨255, 255, 255⟩ = 21 := by
  simp only [calculate_contrast_ratio, lum_black, lum_white]
  rw [max_eq_right (by norm_num : (0 : ℝ) ≤ 1),
    min_eq_left (by norm_num : (0 : ℝ) ≤ 1)]
  norm_num

lemma parse_black : parse_hex_color "#000000" = some ⟨0, 0, 0⟩ := by decide

lemma parse_white : parse_hex_color "#ffffff" = some ⟨255, 255, 255⟩ := by decide

/-! ### The claims -/

/-- Claim C6: for every pair of colors, the contrast ratio is at least 1 and
the division is well-defined, its denominator `min(L1, L2) + 0.05` being
bounded below by 0.05 (so the value is a finite real number). -/
theorem claim_C6_contrast_ge_one (a b : Color) :
    1 ≤ calculate_contrast_ratio a b
    ∧ 0.05 ≤ min (get_luminance a) (get_luminance b) + 0.05 := by
  have h1 := get_luminance_nonneg a
  have h2 := get_luminance_nonneg b
  have hmin : (0 : ℝ) ≤ min (get_luminance a) (get_luminance b) := le_min h1 h2
  have hden : (0 : ℝ) < min (get_luminance a) (get_luminance b) + 0.05 := by
    linarith
  constructor
  · simp only [calculate_contrast_ratio]
    rw [one_le_div hden]
    have := min_le_max (a := get_luminance a) (b := get_luminance b)
    linarith
  · linarith

/-- Claim C7: the contrast ratio is symmetric in its two arguments. -/
theorem claim_C7_contrast_symm (a b : Color) :
    calculate_contrast_ratio a b = calculate_contrast_ratio b a := by
  simp only [calculate_contrast_ratio]
  rw [max_comm, min_comm]

/-- Claim C8: the contrast ratio of pure black `"#000000"` against pure white
`"#ffffff"` is defined and lies in `[20.9, 21.1]` (it is exactly 21 in exact
arithmetic). -/
theorem claim_C8_black_white :
    ∃ r, calculate_contrast_ratio_hex "#000000" "#ffffff" = some r
      ∧ 20.9 ≤ r ∧ r ≤ 21.1 := by
  refine ⟨21, ?_, by norm_num, by norm_num⟩
  simp [calculate_contrast_ratio_hex, parse_black, parse_white,
    contrast_black_white]

/-- Claim C1 (amended): `get_best_contrast_text_color` returns the candidate
with the strictly larger contrast ratio against the given background; when
the two ratios are exactly equal it returns the background candidate, because
the source compares with `>` and the tie falls into the `else` branch. -/
theorem claim_C1_best_text_color (bg fg bgc : Color) (colors : Palette)
    (hf : colors "foreground" = some fg) (hb : colors "background" = some bgc) :
    (calculate_contrast_ratio bgc bg < calculate_contrast_ratio fg bg →
      get_best_contrast_text_color bg colors = some "@foreground")
    ∧ (calculate_contrast_ratio fg bg ≤ calculate_contrast_ratio bgc bg →
      get_best_contrast_text_color bg colors = some "@background") := by
  simp only [get_best_contrast_text_color, hf, hb]
  constructor
  · intro h
    rw [if_pos h]
  · intro h
    rw [if_neg (not_lt.mpr h)]

/-- A palette whose foreground and background candidates are the same color,
so that both contrast ratios against any background coincide. -/
def pEqPalette : Palette := fun k =>
  if k = "foreground" then some ⟨0, 0, 0⟩
  else if k = "background" then some ⟨0, 0, 0⟩
  else none

/-- Claim C1, counterexample to the claim as stated: with equal foreground
and background candidates the two contrast ratios are exactly equal, yet the
function returns `'@background'`, not the foreground candidate. -/
theorem claim_C1_counterexample :
    calculate_contrast_ratio ⟨0, 0, 0⟩ ⟨255, 255, 255⟩
        = calculate_contrast_ratio ⟨0, 0, 0⟩ ⟨255, 255, 255⟩
    ∧ get_best_contrast_text_color ⟨255, 255, 255⟩ pEqPalette
        ≠ some "@foreground" := by
  refine ⟨rfl, ?_⟩
  have hf : pEqPalette "foreground" = some ⟨0, 0, 0⟩ := rfl
  have hb : pEqPalette "background" = some ⟨0, 0, 0⟩ := rfl
  simp only [get_best_contrast_text_color, hf, hb]
  rw [if_neg (lt_irrefl _)]
  simp

/-- Witness for claim C1's amended theorem at a concrete tie. -/
theorem claim_C1_witness :
    get_best_contrast_text_color ⟨255, 255, 255⟩ pEqPalette
      = some "@background" :=
  (claim_C1_best_text_color ⟨255, 255, 255⟩ ⟨0, 0, 0⟩ ⟨0, 0, 0⟩ pEqPalette
    rfl rfl).2 (le_refl _)

/-- Claim C2 (amended): the analyzer raises a `KeyError` (returns `none`)
exactly when the key it reads unconditionally is absent: `'color1'` for
`find_most_vibrant_color` and the accent key for
`find_best_complement_color`.  Palettes missing other candidate keys are not
rejected; the loops skip absent keys. -/
theorem claim_C2_missing_key_behavior (colors : Palette) (ak : String) :
    (find_most_vibrant_color colors = none ↔ colors "color1" = none)
    ∧ (find_best_complement_color colors ak = none ↔ colors ak = none) := by
  constructor
  · cases h : colors "color1" <;> simp [find_most_vibrant_color, h]
  · cases h : colors ak <;> simp [find_best_complement_color, h]

/-- A palette holding black at every required key except `'color2'`, which is
absent: 17 of the 18 required keys are present. -/
def p17 : Palette := fun k =>
  if k = "color2" then none
  else if k ∈ requiredKeys then some ⟨0, 0, 0⟩ else none

lemma p17_black (k : String) (c : Color) (h : p17 k = some c) : c = ⟨0, 0, 0⟩ := by
  unfold p17 at h
  split_ifs at h
  all_goals
    first
      | exact Option.noConfusion h
      | (injection h with h'; exact h'.symm)

lemma hex_to_hsl_black : hex_to_hsl ⟨0, 0, 0⟩ = (0, 0, 0) := by
  show rgb_to_hls (((0 : ℕ) : ℚ) / 255) (((0 : ℕ) : ℚ) / 255)
      (((0 : ℕ) : ℚ) / 255) = (0, 0, 0)
  norm_num [rgb_to_hls]

lemma vibrancy_black : vibrancy_score ⟨0, 0, 0⟩ = 0 := by
  simp [vibrancy_score, hex_to_hsl_black]

/-- Claim C2, counterexample to the claim as stated: on the palette `p17`,
which is missing the required key `'color2'`, `find_most_vibrant_color` does
not signal an error; it returns an accent computed from the incomplete
palette. -/
theorem claim_C2_counterexample :
    p17 "color2" = none
    ∧ find_most_vibrant_color p17 = some ("color1", ⟨0, 0, 0⟩) := by
  refine ⟨rfl, ?_⟩
  have hc1 : p17 "color1" = some ⟨0, 0, 0⟩ := rfl
  rcases vibrant_cases p17 ⟨0, 0, 0⟩ hc1 with ⟨hres, _⟩ | ⟨i, hir, hei, _, hpos, _, _⟩
  · exact hres
  · exfalso
    have hle : vibrancyAt p17 i ≤ 0 := by
      unfold vibrancyAt
      cases h : p17 (keyStr i) with
      | none => simp
      | some c =>
        rw [p17_black _ c h]
        simp [vibrancy_black]
    linarith

/-- Claim C10: a palette lacking `'color1'` makes `find_most_vibrant_color`
raise a `KeyError` (modelled as `none`) even when another eligible candidate
key is present, because `colors['color1']` is read unconditionally before the
loop. -/
theorem claim_C10_missing_color1 (colors : Palette)
    (h1 : colors "color1" = none) (_h2 : presentValid colors "color2") :
    find_most_vibrant_color colors = none := by
  simp [find_most_vibrant_color, h1]

/-- A palette holding black at every required key except `'color1'`, which is
absent. -/
def pNoC1 : Palette := fun k =>
  if k = "color1" then none
  else if k ∈ requiredKeys then some ⟨0, 0, 0⟩ else none

/-- Witness for claim C10 at a concrete palette that lacks `'color1'` but
holds `'color2'`. -/
theorem claim_C10_witness :
    pNoC1 "color1" = none ∧ presentValid pNoC1 "color2"
    ∧ find_most_vibrant_color pNoC1 = none :=
  ⟨rfl, by decide, claim_C10_missing_color1 pNoC1 rfl (by decide)⟩

/-- Claim C3: on a palette with all 18 required keys present (with valid
colors), `find_most_vibrant_color` returns the candidate key, among
`color1..color15` without `color7`, of maximal vibrancy
`s^2 * (1 - |l - 0.45|)`, ties resolved in favor of the smallest index.  (The
`'color1'` fallback for a palette with no eligible candidate cannot trigger
under this hypothesis; it coincides with the all-ties case, where the
returned key is `'color1'`, the smallest candidate index.) -/
theorem claim_C3_accent_argmax (colors : Palette)
    (hall : ∀ k ∈ requiredKeys, presentValid colors k) :
    ∃ i ∈ candidateIdxs, ∃ c, colors (keyStr i) = some c
      ∧ find_most_vibrant_color colors = some (keyStr i, c)
      ∧ (∀ j ∈ candidateIdxs, vibrancyAt colors j ≤ vibrancyAt colors i)
      ∧ (∀ j ∈ candidateIdxs, j < i → vibrancyAt colors j < vibrancyAt colors i) :=
  vibrant_argmax colors hall

/-- A complete palette: a valid color at every required key. -/
def pAll : Palette := fun k =>
  if k ∈ requiredKeys then some ⟨255, 0, 0⟩ else none

/-- Witness for claim C3 at a concrete complete palette. -/
theorem claim_C3_witness :
    ∃ i ∈ candidateIdxs, ∃ c, pAll (keyStr i) = some c
      ∧ find_most_vibrant_color pAll = some (keyStr i, c)
      ∧ (∀ j ∈ candidateIdxs, vibrancyAt pAll j ≤ vibrancyAt pAll i)
      ∧ (∀ j ∈ candidateIdxs, j < i → vibrancyAt pAll j < vibrancyAt pAll i) :=
  claim_C3_accent_argmax pAll (by decide)

/-- Claim C4: on a palette with all 18 required keys present (with valid
colors) and any accent key drawn from the palette,
`find_best_complement_color` returns, among the candidate keys
`color1..color15` without `color0`, `color7` and the accent key, the key of
maximal complement score `(1 - 2*|hueDiff - 0.5|) * s * (1 - |l - 0.4|)`
(with the hue difference wrapped circularly), ties resolved in favor of the
smallest index.  (The `'color2'` fallback cannot trigger under this
hypothesis.) -/
theorem claim_C4_complement_argmax (colors : Palette) (ak : String)
    (hall : ∀ k ∈ requiredKeys, presentValid colors k)
    (hak : ak ∈ requiredKeys) :
    ∃ a, colors ak = some a
      ∧ ∃ i ∈ candidateIdxs, keyStr i ≠ ak
        ∧ find_best_complement_color colors ak = some (keyStr i)
        ∧ (∀ j ∈ candidateIdxs, keyStr j ≠ ak →
            complementScoreAt colors a j ≤ complementScoreAt colors a i)
        ∧ (∀ j ∈ candidateIdxs, keyStr j ≠ ak → j < i →
            complementScoreAt colors a j < complementScoreAt colors a i) := by
  obtain ⟨a, ha, _⟩ := (presentValid_iff colors ak).mp (hall ak hak)
  have hcand : ∀ j ∈ candidateIdxs, presentValid colors (keyStr j) :=
    fun j hj => hall _ (cand_keys_required j hj)
  exact ⟨a, ha, complement_argmax colors ak a ha hcand⟩

/-- Witness for claim C4 at a concrete complete palette and accent key. -/
theorem claim_C4_witness :
    ∃ a, pAll "color3" = some a
      ∧ ∃ i ∈ candidateIdxs, keyStr i ≠ "color3"
        ∧ find_best_complement_color pAll "color3" = some (keyStr i)
        ∧ (∀ j ∈ candidateIdxs, keyStr j ≠ "color3" →
            complementScoreAt pAll a j ≤ complementScoreAt pAll a i)
        ∧ (∀ j ∈ candidateIdxs, keyStr j ≠ "color3" → j < i →
            complementScoreAt pAll a j < complementScoreAt pAll a i) :=
  claim_C4_complement_argmax pAll "color3" (by decide) (by decide)

/-- The 14 chromatic keys: `color1..color15` without `color0` and `color7`. -/
def chromaticKeys : List String :=
  ["color1", "color2", "color3", "color4", "color5", "color6", "color8",
   "color9", "color10", "color11", "color12", "color13", "color14", "color15"]

lemma chromatic_sub_required : ∀ k ∈ chromaticKeys, k ∈ requiredKeys := by
  decide

/-- Claim C5: on a palette with all 18 required keys present (with valid
colors) and a chromatic accent key, `find_best_complement_color` returns a
key that is neither the accent key nor `color0` nor `color7`. -/
theorem claim_C5_complement_avoids (colors : Palette) (ak : String)
    (hall : ∀ k ∈ requiredKeys, presentValid colors k)
    (hak : ak ∈ chromaticKeys) :
    ∃ r, find_best_complement_color colors ak = some r
      ∧ r ≠ ak ∧ r ≠ "color0" ∧ r ≠ "color7" := by
  obtain ⟨a, ha, _⟩ :=
    (presentValid_iff colors ak).mp (hall ak (chromatic_sub_required ak hak))
  have hcand : ∀ j ∈ candidateIdxs, presentValid colors (keyStr j) :=
    fun j hj => hall _ (cand_keys_required j hj)
  obtain ⟨i, hic, hne, hres, _, _⟩ := complement_argmax colors ak a ha hcand
  exact ⟨keyStr i, hres, hne, (cand_keys_ne_bgfg i hic).1,
    (cand_keys_ne_bgfg i hic).2⟩

/-- Witness for claim C5 at a concrete complete palette and chromatic accent. -/
theorem claim_C5_witness :
    ∃ r, find_best_complement_color pAll "color1" = some r
      ∧ r ≠ "color1" ∧ r ≠ "color0" ∧ r ≠ "color7" :=
  claim_C5_complement_avoids pAll "color1" (by decide) (by decide)

/-- Claim C9: every candidate's complement score lies in `[0, 1]` (for valid
colors, whose HLS components lie in `[0, 1]`); consequently, whenever the
accent key is present and at least one eligible candidate key (a candidate
other than the accent) is present with a valid color, the `'color2'`
fallback branch of `find_best_complement_color` is unreachable: the returned
key is one of the examined candidates, every examined score being at least 0
and hence strictly above the initial best score of -1. -/
theorem claim_C9_fallback_unreachable :
    (∀ a c : Color, validColor c →
      0 ≤ complement_score a c ∧ complement_score a c ≤ 1)
    ∧ (∀ (colors : Palette) (ak : String) (a : Color), colors ak = some a →
        (∃ j ∈ candidateIdxs, keyStr j ≠ ak ∧ presentValid colors (keyStr j)) →
        ∃ i ∈ candidateIdxs, keyStr i ≠ ak
          ∧ (colors (keyStr i)).isSome = true
          ∧ find_best_complement_color colors ak = some (keyStr i)) := by
  constructor
  · exact fun a c hc => complement_score_mem a c hc
  · intro colors ak a ha hex
    obtain ⟨j0, hj0, hne0, hpv0⟩ := hex
    rcases complement_cases colors ak a ha with
      ⟨hres, hble⟩ | ⟨i, hir, hei, hres, _, _, _⟩
    · exfalso
      obtain ⟨c0, hc0, hv0⟩ := (presentValid_iff _ _).mp hpv0
      have helig0 := eligC_of_cand colors ak j0 hj0 hne0 (by simp [hc0])
      have hb := hble j0 (cand_mem_range j0 hj0) helig0
      have hs : complementScoreAt colors a j0 = complement_score a c0 := by
        simp [complementScoreAt, hc0]
      have h0 := (complement_score_mem a c0 hv0).1
      rw [hs] at hb
      linarith
    · simp only [eligC, Bool.and_eq_true, decide_eq_true_iff] at hei
      exact ⟨i, mem_cand_of_range i hir (by omega), hei.1.2, hei.2, hres⟩

/-- Witness for claim C9 at concrete colors and a concrete palette. -/
theorem claim_C9_witness :
    (0 ≤ complement_score ⟨255, 0, 0⟩ ⟨0, 255, 0⟩
      ∧ complement_score ⟨255, 0, 0⟩ ⟨0, 255, 0⟩ ≤ 1)
    ∧ (∃ i ∈ candidateIdxs, keyStr i ≠ "color1"
        ∧ (pAll (keyStr i)).isSome = true
        ∧ find_best_complement_color pAll "color1" = some (keyStr i)) :=
  ⟨claim_C9_fallback_unreachable.1 ⟨255, 0, 0⟩ ⟨0, 255, 0⟩ (by decide),
   claim_C9_fallback_unreachable.2 pAll "color1" ⟨255, 0, 0⟩ rfl
     ⟨2, by decide, by decide, by decide⟩⟩
